import Mathlib

set_option maxRecDepth 4000

/-!
Verification of the RegexFileFinder VS Code extension (TypeScript) against its
natural-language specification.

Shallow embedding conventions:
* `vscode.Uri` values are represented by their `fsPath` strings; paths are
  POSIX style with separator `'/'`.
* Host primitives (the JavaScript `RegExp` engine, `vscode.workspace.fs`,
  `path.relative`) are modelled explicitly: the regex engine as a small
  backtracking matcher over a pattern AST, the filesystem as an association
  list from paths to file identities plus Boolean oracles for directory
  existence / creation failure, and `path.relative` as an oracle parameter.
* JavaScript quirks that the source relies on are embedded as written:
  `x || default` treats `0` as absent, `Array.prototype.reverse` mutates the
  array it is called on, and the truncation check in the search loop runs
  after a whole batch has been appended.
-/

namespace RFF

/-! ## String and path utilities (POSIX model of Node's `path` module)

`String.splitOn`, `String.endsWith` and `String.startsWith` from core are
defined by position-based well-founded recursion and do not reduce inside
the kernel, so equivalent structural versions are defined here and used
throughout. -/

/-- Split a character list at every occurrence of `sep`
(structural equivalent of `String.splitOn` with a one-character
separator). -/
def splitOnChar (sep : Char) : List Char → List (List Char)
  | [] => [[]]
  | c :: rest =>
    match splitOnChar sep rest with
    | [] => [[]]
    | g :: gs => if c = sep then [] :: g :: gs else (c :: g) :: gs

/-- `s.split('/')` on strings. -/
def splitSlash (s : String) : List String :=
  (splitOnChar '/' s.toList).map String.mk

/-- Glue a list of strings with `/` (structural equivalent of
`String.intercalate "/"`). -/
def joinSlash : List String → String
  | [] => ""
  | [x] => x
  | x :: y :: rest => x ++ "/" ++ joinSlash (y :: rest)

/-- Whether a path string starts with `/`. -/
def headIsSlash (s : String) : Bool :=
  match s.toList with
  | '/' :: _ => true
  | _ => false

/-- The last character of a string, if any. -/
def lastChar (s : String) : Option Char :=
  s.toList.getLast?

/-- Last `/`-separated segment of a path (model of `path.basename`). -/
def basename (s : String) : String :=
  ((splitSlash s).getLast?).getD s

/-- Directory part of a path (model of `path.dirname`, POSIX). -/
def dirname (s : String) : String :=
  let segs := splitSlash s
  if segs.length ≤ 1 then "."
  else
    let front := segs.dropLast
    if front.all (fun x => x = "") then "/"
    else joinSlash front

/-- Join path fragments with `/`, dropping empty and `"."` segments and
keeping a leading `/` when the first fragment is absolute
(model of `path.join`; `".."` resolution is not needed by this code base). -/
def normalizeJoin (parts : List String) : String :=
  let segs := (parts.map splitSlash).flatten.filter
    (fun x => x ≠ "" && x ≠ ".")
  let core := joinSlash segs
  if headIsSlash (parts.headD "") then "/" ++ core else core

/-- `path.join(a, b)`. -/
def pathJoin (a b : String) : String := normalizeJoin [a, b]

/-- `path.join(a, b, c)`. -/
def pathJoin3 (a b c : String) : String := normalizeJoin [a, b, c]

/-- Characters removed by JavaScript `String.prototype.trim`
(ASCII whitespace suffices for this code base). -/
def isJsSpace (c : Char) : Bool :=
  c = ' ' || c = '\t' || c = '\n' || c = '\r' ||
  c = Char.ofNat 11 || c = Char.ofNat 12

/-- Model of JavaScript `String.prototype.trim`. -/
def jsTrim (s : String) : String :=
  String.mk (((s.toList.dropWhile isJsSpace).reverse.dropWhile isJsSpace).reverse)

/-! ## The host regular-expression engine

`new RegExp(pattern)` (note: no `g` flag anywhere in this code base) and
`String.prototype.replace` are host primitives.  We model patterns by a
small AST and matching by a fuelled backtracking matcher that mirrors the
JavaScript engine's strategy: alternatives are tried left first, `*` is
greedy, and a star never repeats an empty match.  `replace` with a
non-global regex substitutes the leftmost match only; replacement templates
are modelled as literal strings (capture-group references are not needed by
the claims). -/

inductive Reg where
  | eps : Reg
  | chr : Char → Reg
  | anyc : Reg
  | seq : Reg → Reg → Reg
  | alt : Reg → Reg → Reg
  | star : Reg → Reg
deriving DecidableEq, Repr

/-- Size of a pattern, used to compute a sufficient fuel bound. -/
def regSize : Reg → Nat
  | .eps => 1
  | .chr _ => 1
  | .anyc => 1
  | .seq a b => regSize a + regSize b + 1
  | .alt a b => regSize a + regSize b + 1
  | .star a => regSize a + 1

/-- Fuelled backtracking matcher.  `mtch fuel r s k` tries to match `r`
against a prefix of `s` and passes the remainder to the continuation `k`,
returning the first success in JavaScript backtracking order. -/
def mtch : Nat → Reg → List Char → (List Char → Option (List Char)) →
    Option (List Char)
  | 0, _, _, _ => none
  | _ + 1, .eps, s, k => k s
  | _ + 1, .chr c, s, k =>
    match s with
    | [] => none
    | c' :: s' => if c' = c then k s' else none
  | _ + 1, .anyc, s, k =>
    match s with
    | [] => none
    | _ :: s' => k s'
  | fuel + 1, .seq a b, s, k => mtch fuel a s (fun s' => mtch fuel b s' k)
  | fuel + 1, .alt a b, s, k =>
    match mtch fuel a s k with
    | some r => some r
    | none => mtch fuel b s k
  | fuel + 1, .star a, s, k =>
    match mtch fuel a s
        (fun s' => if s'.length = s.length then none
                   else mtch fuel (.star a) s' k) with
    | some r => some r
    | none => k s

/-- Fuel sufficient for the concrete evaluations in this file. -/
def matchFuel (r : Reg) (s : List Char) : Nat :=
  (regSize r + 2) * (s.length + 2)

/-- Length of the backtracking-first match of `r` at the start of `s`,
if any. -/
def matchLen (r : Reg) (s : List Char) : Option Nat :=
  match mtch (matchFuel r s) r s some with
  | some rest => some (s.length - rest.length)
  | none => none

/-- Scan for the leftmost position at which `r` matches; returns the
position together with the match length. -/
def firstMatchAux (r : Reg) : List Char → Nat → Option (Nat × Nat)
  | s, i =>
    match matchLen r s with
    | some l => some (i, l)
    | none =>
      match s with
      | [] => none
      | _ :: s' => firstMatchAux r s' (i + 1)

/-- Leftmost match of `r` in `s` (position, length), if any. -/
def firstMatch (r : Reg) (s : List Char) : Option (Nat × Nat) :=
  firstMatchAux r s 0

/-- Model of `s.replace(regex, repl)` for a regex compiled WITHOUT the `g`
flag: only the leftmost match is substituted, everything else is copied
verbatim. -/
def jsReplace (r : Reg) (repl : List Char) (s : List Char) : List Char :=
  match firstMatch r s with
  | none => s
  | some (i, l) => s.take i ++ repl ++ s.drop (i + l)

/-- String-level wrapper of `jsReplace`. -/
def jsReplaceStr (r : Reg) (repl s : String) : String :=
  String.mk (jsReplace r repl.toList s.toList)

/-! ## FileRenameService: preview and validation
(src/services/fileRenameService.ts) -/

/-- `RenamePreview` (src/types); `oldUri`/`newUri` are represented by their
`fsPath` strings `oldPath`/`newPath`. -/
structure RenamePreview where
  oldPath : String
  newPath : String
  oldFileName : String
  newFileName : String
  needsDirectoryMove : Bool
deriving DecidableEq, Repr, Inhabited

/-- `FileRenameService.generateNewFilePath`. -/
def generateNewFilePath (directory newFileName : String) : String :=
  if newFileName.toList.contains '/' then
    let parts := splitSlash newFileName
    let fileName := (parts.getLast?).getD ""
    let subDirs := joinSlash parts.dropLast
    pathJoin3 directory subDirs fileName
  else
    pathJoin directory newFileName

/-- Preview entry built for one file, as in the loop body of
`FileRenameService.previewRename`. -/
def mkPreview (pat : Reg) (replacement : String) (f : String) : RenamePreview :=
  let fileName := basename f
  let fileDir := dirname f
  let newFileName := jsReplaceStr pat replacement fileName
  let newPath := generateNewFilePath fileDir newFileName
  { oldPath := f
    newPath := newPath
    oldFileName := fileName
    newFileName := newFileName
    needsDirectoryMove := f ≠ newPath }

/-- Core loop of `FileRenameService.previewRename`: one entry per file whose
base name is changed by the substitution, unchanged files are skipped.
The compiled `new RegExp(searchPattern)` is the `pat` argument. -/
def previewRename (pat : Reg) (replacement : String) :
    List String → List RenamePreview
  | [] => []
  | f :: fs =>
    let p := mkPreview pat replacement f
    if p.newFileName = p.oldFileName then previewRename pat replacement fs
    else p :: previewRename pat replacement fs

/-- `FileRenameService.previewRename` including the empty-pattern guard
(`!searchPattern || searchPattern.trim() === ''` yields `[]`);
`patStr` is the raw pattern string, `pat` its compiled form. -/
def previewRenameFull (patStr : String) (pat : Reg) (replacement : String)
    (files : List String) : List RenamePreview :=
  if jsTrim patStr = "" then [] else previewRename pat replacement files

/-- Characters rejected by the `invalidChars` regex
`/[<>:"|?*\x00-\x1f]/` in `isValidFileName`. -/
def isInvalidFileChar (c : Char) : Bool :=
  c = '<' || c = '>' || c = ':' || c = '"' || c = '|' || c = '?' || c = '*' ||
  c.toNat ≤ 31

/-- The Windows reserved device names tested by the `reservedNames` regex. -/
def reservedBases : List String :=
  ["CON", "PRN", "AUX", "NUL",
   "COM1", "COM2", "COM3", "COM4", "COM5", "COM6", "COM7", "COM8", "COM9",
   "LPT1", "LPT2", "LPT3", "LPT4", "LPT5", "LPT6", "LPT7", "LPT8", "LPT9"]

/-- Strip a literal leading run `b` from `u`, returning the remainder. -/
def stripLead : List Char → List Char → Option (List Char)
  | [], u => some u
  | _ :: _, [] => none
  | b :: bs, c :: cs => if c = b then stripLead bs cs else none

/-- After a reserved base name, the regex requires `.` or end of string
(`(\.|$)`). -/
def reservedSep : List Char → Bool
  | [] => true
  | '.' :: _ => true
  | _ => false

/-- Model of the `reservedNames` regex test
`/^(CON|PRN|AUX|NUL|COM[1-9]|LPT[1-9])(\.|$)/i`. -/
def isReservedName (fileName : String) : Bool :=
  let u := fileName.toList.map Char.toUpper
  reservedBases.any fun b =>
    match stripLead b.toList u with
    | some rest => reservedSep rest
    | none => false

/-- `FileRenameService.isValidFileName`. -/
def isValidFileName (fileName : String) : Bool :=
  if jsTrim fileName = "" then false
  else if fileName.toList.any isInvalidFileChar then false
  else if isReservedName fileName then false
  else if lastChar fileName = some '.' || lastChar fileName = some ' ' then
    false
  else true

/-- `RenameValidationResult` (src/types).  The optional fields that the
source leaves `undefined` when empty are modelled as empty lists; warning
texts are abstracted to tags since no claim inspects the message strings. -/
structure RenameValidationResult where
  isValid : Bool
  hasError : Bool
  warnings : List String
  duplicateFiles : List RenamePreview
  directoriesToCreate : List String
deriving DecidableEq, Repr

/-- Duplicate scan of `validateRename`: entries whose `newPath` was already
claimed by an earlier entry, in order. -/
def duplicateScan (previews : List RenamePreview) : List RenamePreview :=
  (previews.foldl
    (fun (acc : List String × List RenamePreview) p =>
      if p.newPath ∈ acc.1 then (acc.1, acc.2 ++ [p])
      else (acc.1 ++ [p.newPath], acc.2))
    ([], [])).2

/-- Directory-collection pass of `validateRename`: for entries flagged
`needsDirectoryMove`, directories whose `stat` fails, deduplicated in
order.  `fsDirExists` models `vscode.workspace.fs.stat` succeeding on the
directory. -/
def dirsNeedingCreation (fsDirExists : String → Bool)
    (previews : List RenamePreview) : List String :=
  previews.foldl
    (fun acc p =>
      if p.needsDirectoryMove then
        let d := dirname p.newPath
        if fsDirExists d then acc
        else if d ∈ acc then acc else acc ++ [d]
      else acc)
    []

/-- `FileRenameService.validateRename`.  `fsExists` models
`vscode.workspace.fs.stat` on a file path, `fsDirExists` on a directory
path. -/
def validateRename (fsExists fsDirExists : String → Bool)
    (previews : List RenamePreview) : RenameValidationResult :=
  let duplicateFiles := duplicateScan previews
  let warnings := if duplicateFiles ≠ [] then ["duplicate-warning"] else []
  let invalidFiles := previews.filter (fun p => ¬ isValidFileName p.newFileName)
  if invalidFiles ≠ [] then
    { isValid := false
      hasError := true
      warnings := warnings
      duplicateFiles := duplicateFiles
      directoriesToCreate := [] }
  else
    let conflicting := previews.filter (fun p => fsExists p.newPath)
    let warnings := warnings ++
      (if conflicting ≠ [] then ["conflict-warning"] else [])
    { isValid := true
      hasError := false
      warnings := warnings
      duplicateFiles := duplicateFiles
      directoriesToCreate := dirsNeedingCreation fsDirExists previews }

/-! ## FileRenameService: execute / undo / redo over a filesystem model -/

/-- The filesystem as an association list from paths to file identities.
Directory structure is handled separately by the `dirExists`/`createFails`
oracles. -/
def FS := List (String × Nat)

instance : DecidableEq FS := inferInstanceAs (DecidableEq (List (String × Nat)))

/-- Path lookup. -/
def fsLookup (fs : FS) (p : String) : Option Nat :=
  match fs with
  | [] => none
  | (q, v) :: rest => if q = p then some v else fsLookup rest p

/-- Model of `vscode.workspace.fs.rename(src, dst, {overwrite: false})`:
fails (`none`) when the source is absent or the destination already
exists. -/
def fsRename (fs : FS) (src dst : String) : Option FS :=
  match fsLookup fs src with
  | none => none
  | some v =>
    match fsLookup fs dst with
    | some _ => none
    | none => some ((dst, v) :: fs.filter (fun q => q.1 ≠ src))

/-- `RenameHistory` (src/types): the `fileMapping` array plus timestamp. -/
structure RenameHistory where
  mapping : List (String × String)
  timestamp : Nat
deriving DecidableEq, Repr

/-- The two history stacks of `FileRenameService`; the head of each list is
the top of the stack (the end of the source array). -/
structure RenameState where
  undoH : List RenameHistory
  redoH : List RenameHistory
deriving DecidableEq, Repr

/-- `FileRenameService._maxHistorySize`. -/
def maxHistorySize : Nat := 10

/-- `FileRenameService.addToHistory`: push onto the undo stack, evict the
oldest entry past `maxHistorySize`, clear the redo stack. -/
def addToHistory (h : RenameHistory) (st : RenameState) : RenameState :=
  let u := h :: st.undoH
  { undoH := if maxHistorySize < u.length then u.dropLast else u
    redoH := [] }

/-- `RenameResult` (src/types); `errors` keeps the `file` component of each
accumulated error record (no claim inspects the message text). -/
structure RenameResult where
  successCount : Nat
  failureCount : Nat
  errors : List String
deriving DecidableEq, Repr

/-- Directory pre-creation set of `executeRename`: `path.dirname(newPath)`
for every entry flagged `needsDirectoryMove`, deduplicated in insertion
order (a JavaScript `Set`). -/
def dirsToCreate (previews : List RenamePreview) : List String :=
  previews.foldl
    (fun acc p =>
      if p.needsDirectoryMove then
        let d := dirname p.newPath
        if d ∈ acc then acc else acc ++ [d]
      else acc)
    []

/-- `ensureDirectoryExists` fails exactly when the directory is absent and
`createDirectory` throws. -/
def dirPrepFails (dirEx createFails : String → Bool) (d : String) : Bool :=
  !dirEx d && createFails d

/-- One step of the move loop of `executeRename`: state is
(filesystem, attempted rename calls, successful `fileMapping`, errors). -/
def execStep (s : FS × List (String × String) × List (String × String) ×
    List String) (p : RenamePreview) :
    FS × List (String × String) × List (String × String) × List String :=
  let attempted := s.2.1 ++ [(p.oldPath, p.newPath)]
  match fsRename s.1 p.oldPath p.newPath with
  | some fs' => (fs', attempted, s.2.2.1 ++ [(p.oldPath, p.newPath)], s.2.2.2)
  | none => (s.1, attempted, s.2.2.1, s.2.2.2 ++ [p.oldPath])

/-- `FileRenameService.executeRename`.  Returns the `RenameResult`, the list
of filesystem `rename` calls attempted (in order), the final filesystem and
the final history state.  `now` models `Date.now()`. -/
def executeRename (dirEx createFails : String → Bool) (now : Nat)
    (fs : FS) (st : RenameState) (previews : List RenamePreview) :
    RenameResult × List (String × String) × FS × RenameState :=
  if previews = [] then (⟨0, 0, []⟩, [], fs, st)
  else if (dirsToCreate previews).any (dirPrepFails dirEx createFails) then
    (⟨0, previews.length, [(previews.headD default).oldPath]⟩, [], fs, st)
  else
    let r := previews.foldl execStep (fs, [], [], [])
    let mapping := r.2.2.1
    let st' := if mapping ≠ [] then addToHistory ⟨mapping, now⟩ st else st
    (⟨mapping.length, previews.length - mapping.length, r.2.2.2⟩,
     r.2.1, r.1, st')

/-- One step of the replay loop of `undo`/`redo`: attempt
`rename src dst`; state is (filesystem, attempted calls, successCount,
errors). -/
def replayStep (s : FS × List (String × String) × Nat × List String)
    (mv : String × String) :
    FS × List (String × String) × Nat × List String :=
  let attempted := s.2.1 ++ [mv]
  match fsRename s.1 mv.1 mv.2 with
  | some fs' => (fs', attempted, s.2.2.1 + 1, s.2.2.2)
  | none => (s.1, attempted, s.2.2.1, s.2.2.2 ++ [mv.1])

/-- `FileRenameService.undo`.  Returns `none` when the undo stack is empty
(the source throws `NoUndoHistory`).  The source calls
`lastHistory.fileMapping.reverse()`, which mutates the stored array in
place before it is pushed onto the redo stack; the entry pushed to the redo
stack therefore carries the REVERSED mapping. -/
def undoService (fs : FS) (st : RenameState) :
    Option (RenameResult × List (String × String) × FS × RenameState) :=
  match st.undoH with
  | [] => none
  | e :: rest =>
    let m := e.mapping.reverse
    let r := m.foldl (fun s mv => replayStep s (mv.2, mv.1)) (fs, [], 0, [])
    some (⟨r.2.2.1, m.length - r.2.2.1, r.2.2.2⟩, r.2.1, r.1,
      { undoH := rest, redoH := ⟨m, e.timestamp⟩ :: st.redoH })

/-- `FileRenameService.redo`.  Returns `none` when the redo stack is empty
(the source throws `NoRedoHistory`).  Replays the stored mapping
front-to-back and pushes the entry back onto the undo stack (note: without
the `maxHistorySize` trim). -/
def redoService (fs : FS) (st : RenameState) :
    Option (RenameResult × List (String × String) × FS × RenameState) :=
  match st.redoH with
  | [] => none
  | e :: rest =>
    let r := e.mapping.foldl replayStep (fs, [], 0, [])
    some (⟨r.2.2.1, e.mapping.length - r.2.2.1, r.2.2.2⟩, r.2.1, r.1,
      { undoH := e :: st.undoH, redoH := rest })

/-- One observable service call: `executeRename` with arbitrary inputs, or
`undo`/`redo` on a non-empty stack, each against an arbitrary filesystem
(so external filesystem interference between calls is subsumed). -/
inductive ServiceStep : RenameState → RenameState → Prop
  | exec (dirEx createFails : String → Bool) (now : Nat) (fs : FS)
      (previews : List RenamePreview) (st : RenameState) :
      ServiceStep st (executeRename dirEx createFails now fs st previews).2.2.2
  | undoStep (fs : FS) (st : RenameState)
      (out : RenameResult × List (String × String) × FS × RenameState)
      (h : undoService fs st = some out) :
      ServiceStep st out.2.2.2
  | redoStep (fs : FS) (st : RenameState)
      (out : RenameResult × List (String × String) × FS × RenameState)
      (h : redoService fs st = some out) :
      ServiceStep st out.2.2.2

/-- History states reachable from a fresh `FileRenameService`
(both stacks empty) by any sequence of service calls. -/
def ReachableState (st : RenameState) : Prop :=
  Relation.ReflTransGen ServiceStep ⟨[], []⟩ st

/-! ## FileSearchService (src/services/fileSearchService.ts) -/

/-- JavaScript `options.x || default`: `0` and absence both select the
default. -/
def jsOrDefault (o : Option Nat) (d : Nat) : Nat :=
  match o with
  | none => d
  | some n => if n = 0 then d else n

/-- Batch loop of `FileSearchService.performFileSearch`.  One fuel unit per
loop iteration (the caller supplies `allFiles.length` which suffices since
the effective batch size is positive).  Note the source appends a WHOLE
batch of matches and only then compares the accumulator against
`maxResults`. -/
def searchLoop (test : String → Bool) (batchSize maxResults : Nat) :
    Nat → List String → List String → List String
  | 0, _, acc => acc
  | fuel + 1, remaining, acc =>
    if remaining = [] then acc
    else
      if maxResults ≤ (acc ++
          (remaining.take batchSize).filter (fun f => test (basename f))).length
      then acc ++ (remaining.take batchSize).filter (fun f => test (basename f))
      else
        searchLoop test batchSize maxResults fuel (remaining.drop batchSize)
          (acc ++ (remaining.take batchSize).filter (fun f => test (basename f)))

/-- `FileSearchService.performFileSearch` restricted to its pure core:
`test` is `regex.test`, `allFiles` the enumeration result; cancellation and
progress reporting have no effect on the returned list in an uncancelled
run.  Defaults: `batchSize = options.batchSize || 100`,
`maxResults = options.maxResults || 10000`. -/
def performFileSearch (test : String → Bool) (allFiles : List String)
    (batchSizeOpt maxResultsOpt : Option Nat) : List String :=
  let batchSize := jsOrDefault batchSizeOpt 100
  let maxResults := jsOrDefault maxResultsOpt 10000
  searchLoop test batchSize maxResults allFiles.length allFiles []

/-! ## RegexValidator (src/utils/regexValidator.ts) -/

/-- `DANGEROUS_PATTERNS[0..2]`: an opening bracket, any run of
non-closing characters, then at least `n` consecutive closing brackets
(`/\([^)]*\){50,}/` and the `[`/`{` analogues, `n = 50`). -/
def closeRunTest (o c : Char) (n : Nat) (s : List Char) : Bool :=
  s.tails.any fun t =>
    match t with
    | [] => false
    | x :: rest =>
      x = o && n ≤ ((rest.dropWhile (fun y => y ≠ c)).takeWhile
        (fun y => y = c)).length

/-- `DANGEROUS_PATTERNS[3]` parser: `k` consecutive occurrences of
`\([^)]*\)\*` starting at the head of the list. -/
def starGroupRun : Nat → List Char → Bool
  | 0, _ => true
  | k + 1, s =>
    match s with
    | '(' :: rest =>
      match rest.dropWhile (fun y => y ≠ ')') with
      | ')' :: '*' :: r3 => starGroupRun k r3
      | _ => false
    | _ => false

/-- `DANGEROUS_PATTERNS[3]`: ten consecutive `\([^)]*\)\*` groups anywhere
in the pattern. -/
def tenStarGroupsTest (s : List Char) : Bool :=
  s.tails.any (starGroupRun 10)

/-- `DANGEROUS_PATTERNS[4]` (the deeply-nested-groups regex): satisfied
exactly when some `)` is preceded by a `)`-free run containing at least 11
`(` characters. -/
def deepNestScan : List Char → Nat → Bool
  | [], _ => false
  | c :: rest, opens =>
    if c = '(' then deepNestScan rest (opens + 1)
    else if c = ')' then
      if 11 ≤ opens then true else deepNestScan rest 0
    else deepNestScan rest opens

/-- `DANGEROUS_PATTERNS[4]` as a test on the whole pattern. -/
def deepNestTest (s : List Char) : Bool :=
  deepNestScan s 0

/-- The `for` loop over `DANGEROUS_PATTERNS`. -/
def dangerousListTest (s : List Char) : Bool :=
  closeRunTest '(' ')' 50 s || closeRunTest '[' ']' 50 s ||
  closeRunTest '{' '}' 50 s || tenStarGroupsTest s || deepNestTest s

/-- Numeric value of a digit run. -/
def digitsToNat (ds : List Char) : Nat :=
  ds.foldl (fun n c => n * 10 + (c.toNat - 48)) 0

/-- Bounded-repeat check: some `{digits,}` occurrence whose lower bound is
at least 100 (`/\{([0-9]+),\}/` matches with `parseInt >= 100`). -/
def repeatAtLeast100Test (s : List Char) : Bool :=
  s.tails.any fun t =>
    match t with
    | '{' :: rest =>
      let ds := rest.takeWhile Char.isDigit
      decide (ds ≠ []) &&
        (match rest.drop ds.length with
         | ',' :: '}' :: _ => 100 ≤ digitsToNat ds
         | _ => false)
    | _ => false

/-- Whether `c` is one of the greedy quantifier characters `*`, `+`, `?`. -/
def isQuantChar (c : Char) : Bool :=
  c = '*' || c = '+' || c = '?'

/-- A run of at least `n` consecutive IDENTICAL quantifier characters
somewhere in the pattern.  The source test `/(\*|\+|\?)\1{5,}/` is
`quantRunTest 6` (one captured character plus five or more repeats). -/
def quantRunTest (n : Nat) (s : List Char) : Bool :=
  s.tails.any fun t =>
    match t with
    | [] => false
    | c :: rest =>
      isQuantChar c && n ≤ (rest.takeWhile (fun y => y = c)).length + 1

/-- The hand-rolled parenthesis nesting counter of `isDangerousPattern`
(and `calculateMaxNesting`): `)` never drops the counter below zero. -/
def maxNesting (s : List Char) : Nat :=
  (s.foldl
    (fun (st : Nat × Nat) c =>
      if c = '(' then (max st.1 (st.2 + 1), st.2 + 1)
      else if c = ')' then (st.1, st.2 - 1)
      else st)
    (0, 0)).1

/-- `RegexValidator.isDangerousPattern`. -/
def isDangerousPattern (pattern : String) : Bool :=
  let s := pattern.toList
  dangerousListTest s || repeatAtLeast100Test s || quantRunTest 6 s ||
  decide (10 ≤ maxNesting s)

/-- `RegexValidator.MAX_PATTERN_LENGTH`. -/
def maxPatternLength : Nat := 1000

/-- The `isValid` verdict of `RegexValidator.validate`.  `syntaxOk` models
the host `new RegExp(pattern)` call not throwing (the only step delegated
to the host engine); the complexity analysis and advisory warnings further
down in `validate` never change `isValid`. -/
def validateIsValid (syntaxOk : Bool) (pattern : String) : Bool :=
  if jsTrim pattern = "" then false
  else if maxPatternLength < pattern.length then false
  else if !syntaxOk then false
  else if isDangerousPattern pattern then false
  else true

/-! ## TreeBuilder (utils/treeBuilder.ts) -/

/-- `TreeBuilder.MAX_DEPTH` — declared in the source and never read by
`processBatch`. -/
def treeMaxDepthConst : Nat := 50

/-- The depth guard of `TreeBuilder.processBatch`:
`if (options.maxDepth && parts.length > options.maxDepth) continue;`.
An absent or zero `maxDepth` is falsy, so the guard is skipped entirely. -/
def depthSkip (maxDepth : Option Nat) (parts : List String) : Bool :=
  match maxDepth with
  | none => false
  | some n => decide (n ≠ 0) && decide (n < parts.length)

/-- Relative path segments of one file
(`path.relative(workspaceRoot, fsPath).split(path.sep)`); `rel` is the
host `path.relative workspaceRoot` primitive. -/
def relParts (rel : String → String) (f : String) : List String :=
  splitSlash (rel f)

/-- The files of a batch that survive the depth guard and reach
`createNodesForPath`, in order.  Batching in `buildNodeMap` partitions the
file list in order, so the processed files over all batches are exactly
this filter. -/
def treeProcessedFiles (rel : String → String) (maxDepth : Option Nat)
    (files : List String) : List String :=
  files.filter (fun f => !depthSkip maxDepth (relParts rel f))

/-! ## Spec-side predicates and concrete scenario inputs -/

/-- The invalid-file-name conditions exactly as the specification lists
them: empty, a control character or one of `< > : " | ? *`, a reserved
device name (case-insensitively, bare or with an extension), or a trailing
space or dot. -/
def specInvalidName (name : String) : Prop :=
  name = "" ∨
  (∃ c ∈ name.toList,
    c ∈ ['<', '>', ':', '"', '|', '?', '*'] ∨ c.toNat ≤ 31) ∨
  (∃ b ∈ reservedBases,
    name.toList.map Char.toUpper = b.toList ∨
    ∃ r, name.toList.map Char.toUpper = b.toList ++ '.' :: r) ∨
  lastChar name = some '.' ∨ lastChar name = some ' '

/-- Chained-batch scenario: the first entry vacates `/w/b`, the second
moves `/w/a` into it.  `needsDirectoryMove` is `true` on both entries as
the source computes it (old and new full paths differ). -/
def chainPreviewBC : RenamePreview :=
  { oldPath := "/w/b", newPath := "/w/c", oldFileName := "b"
    newFileName := "c", needsDirectoryMove := true }

/-- Second entry of the chained-batch scenario. -/
def chainPreviewAB : RenamePreview :=
  { oldPath := "/w/a", newPath := "/w/b", oldFileName := "a"
    newFileName := "b", needsDirectoryMove := true }

/-- Initial filesystem of the chained-batch scenario: file 0 at `/w/a`,
file 1 at `/w/b`. -/
def chainFS : FS := [("/w/a", 0), ("/w/b", 1)]

/-- `executeRename` on the chained batch from a fresh service; all
directories exist, so the directory-preparation phase is a no-op. -/
def chainExec : RenameResult × List (String × String) × FS × RenameState :=
  executeRename (fun _ => true) (fun _ => false) 0 chainFS ⟨[], []⟩
    [chainPreviewBC, chainPreviewAB]

/-- `undo()` immediately after the chained execute. -/
def chainUndo : RenameResult × List (String × String) × FS × RenameState :=
  (undoService chainExec.2.2.1 chainExec.2.2.2).getD
    (⟨0, 0, []⟩, [], [], ⟨[], []⟩)

/-- `redo()` immediately after that undo. -/
def chainRedo : RenameResult × List (String × String) × FS × RenameState :=
  (redoService chainUndo.2.2.1 chainUndo.2.2.2).getD
    (⟨0, 0, []⟩, [], [], ⟨[], []⟩)

/-- A relative path of 51 segments, one more than the never-applied
default depth limit of 50. -/
def deepPath : String := joinSlash (List.replicate 51 "a")

/-- A history state whose undo stack is exactly full. -/
def tenState : RenameState :=
  { undoH := List.replicate 10 ⟨[], 0⟩, redoH := [] }

/-- A preview entry whose new name is the reserved device name `CON`. -/
def conPreview : RenamePreview := ⟨"/w/a.ts", "/w/CON", "a.ts", "CON", true⟩

/-- A preview entry that moves `/w/a` into the directory `/s`. -/
def dirFailPreview : RenamePreview := ⟨"/w/a", "/s/b", "a", "b", true⟩

/-! ## Theorems -/

theorem jsOrDefault_pos (o : Option Nat) (d : Nat) (hd : 0 < d) :
    0 < jsOrDefault o d := by
  cases o with
  | none => simpa [jsOrDefault] using hd
  | some n =>
    by_cases h : n = 0
    · simpa [jsOrDefault, h] using hd
    · simp only [jsOrDefault, if_neg h]
      omega

theorem searchLoop_length_le (test : String → Bool) (bs M : Nat) :
    ∀ fuel remaining acc, acc.length < M →
      (searchLoop test bs M fuel remaining acc).length ≤ M - 1 + bs := by
  intro fuel
  induction fuel with
  | zero =>
    intro remaining acc h
    simp only [searchLoop]
    omega
  | succ n ih =>
    intro remaining acc h
    rw [searchLoop]
    split
    · omega
    · have hb : ((remaining.take bs).filter
          (fun f => test (basename f))).length ≤ bs := by
        calc ((remaining.take bs).filter (fun f => test (basename f))).length
            ≤ (remaining.take bs).length := List.length_filter_le _ _
          _ ≤ bs := by
              rw [List.length_take]
              omega
      split
      · rename_i hstop
        simp only [List.length_append]
        simp only [List.length_append] at hstop
        omega
      · rename_i hmore
        apply ih
        simp only [List.length_append] at hmore ⊢
        omega

/-- C2, counterexample: with `batchSize = 2` and `maxResults = 1`, a first
batch holding two matches is appended wholesale, so the search returns two
files although `maxResults` is one — the claimed bound
"never more than `M` files" fails. -/
theorem claim2_counterexample :
    performFileSearch (fun _ => true) ["/a", "/b"] (some 2) (some 1) =
      ["/a", "/b"] ∧
    jsOrDefault (some 1) 10000 <
      (performFileSearch (fun _ => true) ["/a", "/b"]
        (some 2) (some 1)).length := by
  decide

/-- C2, amended: the search stops enumerating after the batch in which the
accumulated match count first reaches `maxResults`, but that whole batch is
returned, so the result holds at most `maxResults - 1 + batchSize` files
(with the `||`-defaults 10000 and 100 for absent or zero options). -/
theorem claim2_amended_bound (test : String → Bool) (allFiles : List String)
    (batchSizeOpt maxResultsOpt : Option Nat) :
    (performFileSearch test allFiles batchSizeOpt maxResultsOpt).length ≤
      jsOrDefault maxResultsOpt 10000 - 1 + jsOrDefault batchSizeOpt 100 := by
  have hM : 0 < jsOrDefault maxResultsOpt 10000 :=
    jsOrDefault_pos _ _ (by omega)
  unfold performFileSearch
  exact searchLoop_length_le _ _ _ _ _ _ (by simpa using hM)

/-- C9, counterexample: with the `maxDepth` option absent, a path of 51
relative segments is NOT skipped by `processBatch` — the declared default
limit `MAX_DEPTH = 50` is never applied. -/
theorem claim9_counterexample :
    treeProcessedFiles id none [deepPath] = [deepPath] ∧
    treeMaxDepthConst < (relParts id deepPath).length := by
  decide

/-- C9, amended: `buildFileTree` skips (without failing the build) exactly
the paths whose relative segment count exceeds `maxDepth` when that option
is present and nonzero; when the option is absent no depth limit at all is
applied — the `MAX_DEPTH = 50` constant is declared but unused. -/
theorem claim9_amended :
    (∀ (rel : String → String) (files : List String) (n : Nat) (f : String),
      n ≠ 0 → n < (relParts rel f).length →
      f ∉ treeProcessedFiles rel (some n) files) ∧
    (∀ (rel : String → String) (files : List String),
      treeProcessedFiles rel none files = files) := by
  constructor
  · intro rel files n f hn hlen hmem
    have h2 := (List.mem_filter.mp hmem).2
    simp [depthSkip, hn, hlen] at h2
  · intro rel files
    simp [treeProcessedFiles, depthSkip]

/-- Witness for the amended C9 at a concrete input: a 51-segment path is
skipped when `maxDepth = 50` is passed explicitly. -/
theorem claim9_amended_witness :
    ((50 : Nat) ≠ 0 ∧ 50 < (relParts id deepPath).length) ∧
    deepPath ∉ treeProcessedFiles id (some 50) [deepPath] :=
  ⟨⟨by decide, by decide⟩,
   claim9_amended.1 id [deepPath] 50 deepPath (by decide) (by decide)⟩

/-- C8, counterexample: `"[*****]"` is a syntactically valid pattern (a
character class of literal stars) containing five consecutive identical
greedy quantifier characters, yet `validate` accepts it: the source test
`/(\*|\+|\?)\1{5,}/` only fires from SIX consecutive quantifiers on. -/
theorem claim8_counterexample :
    quantRunTest 5 "[*****]".toList = true ∧
    validateIsValid true "[*****]" = true := by
  decide

/-- C8, amended: every pattern containing six or more consecutive identical
greedy quantifier characters is rejected by `validate`
(`isValid = false`), whatever the host syntax check says. -/
theorem claim8_amended (pattern : String) (syntaxOk : Bool)
    (h : quantRunTest 6 pattern.toList = true) :
    validateIsValid syntaxOk pattern = false := by
  unfold validateIsValid
  split
  · rfl
  split
  · rfl
  split
  · rfl
  split
  · rfl
  · rename_i hdang
    have h' : quantRunTest 6 pattern.data = true := h
    exact absurd (by simp [isDangerousPattern, h']) hdang

/-- Witness for the amended C8: six consecutive stars inside a character
class are rejected. -/
theorem claim8_amended_witness :
    quantRunTest 6 "[******]".toList = true ∧
    validateIsValid true "[******]" = false :=
  ⟨by decide, claim8_amended "[******]" true (by decide)⟩

theorem toList_mk (l : List Char) : (String.mk l).toList = l := rfl

theorem mem_previewRename {pat : Reg} {rep : String} {files : List String}
    {e : RenamePreview} (h : e ∈ previewRename pat rep files) :
    ∃ f ∈ files, e = mkPreview pat rep f := by
  induction files with
  | nil => simp [previewRename] at h
  | cons f fs ih =>
    simp only [previewRename] at h
    split at h
    · obtain ⟨g, hg, he⟩ := ih h
      exact ⟨g, List.mem_cons_of_mem _ hg, he⟩
    · rcases List.mem_cons.mp h with he | hmem
      · exact ⟨f, List.mem_cons_self _ _, he⟩
      · obtain ⟨g, hg, he⟩ := ih hmem
        exact ⟨g, List.mem_cons_of_mem _ hg, he⟩

/-- C3, counterexample: a plain same-directory rename (`x.ts` to `y.ts`
inside `/w`) is surfaced with `needsDirectoryMove = true`, although the
directory of the new path equals the original directory — the flag tracks
whole-path difference, not directory difference, so it is not false for a
plain rename. -/
theorem claim3_counterexample :
    previewRename (Reg.chr 'x') "y" ["/w/x.ts"] =
      [{ oldPath := "/w/x.ts", newPath := "/w/y.ts", oldFileName := "x.ts",
         newFileName := "y.ts", needsDirectoryMove := true }] ∧
    dirname "/w/y.ts" = dirname "/w/x.ts" := by
  decide

/-- C3, amended: for every surfaced preview entry, `needsDirectoryMove` is
true exactly when the computed new absolute path differs from the file's
original full path (`file.fsPath !== newPath`); in particular it is true,
not false, for a same-directory rename that changes the base name. -/
theorem claim3_amended (pat : Reg) (rep : String) (files : List String)
    (e : RenamePreview) (h : e ∈ previewRename pat rep files) :
    (e.needsDirectoryMove = true ↔ e.oldPath ≠ e.newPath) := by
  obtain ⟨f, _, he⟩ := mem_previewRename h
  subst he
  simp [mkPreview]

/-- Witness for the amended C3 at the concrete same-directory rename. -/
theorem claim3_amended_witness :
    mkPreview (Reg.chr 'x') "y" "/w/x.ts" ∈
        previewRename (Reg.chr 'x') "y" ["/w/x.ts"] ∧
    ((mkPreview (Reg.chr 'x') "y" "/w/x.ts").needsDirectoryMove = true ↔
      (mkPreview (Reg.chr 'x') "y" "/w/x.ts").oldPath ≠
        (mkPreview (Reg.chr 'x') "y" "/w/x.ts").newPath) :=
  ⟨by decide, claim3_amended (Reg.chr 'x') "y" ["/w/x.ts"] _ (by decide)⟩

theorem jsReplaceStr_of_firstMatch (pat : Reg) (rep s : String) (i l : Nat)
    (hm : firstMatch pat s.toList = some (i, l)) :
    (jsReplaceStr pat rep s).toList =
      s.toList.take i ++ rep.toList ++ s.toList.drop (i + l) := by
  unfold jsReplaceStr jsReplace
  rw [hm]
  rfl

/-- C10: `previewRename` compiles the pattern without the `g` flag, so the
substitution touches only the leftmost match: the produced new name is the
prefix before the match, the replacement, and the untouched remainder of
the old base name — hence every further (disjoint) occurrence of the
pattern, lying inside that remainder, is carried over unchanged. -/
theorem claim10_leftmost_only (pat : Reg) (rep : String) (files : List String)
    (e : RenamePreview) (i l : Nat)
    (he : e ∈ previewRename pat rep files)
    (hm : firstMatch pat e.oldFileName.toList = some (i, l)) :
    e.newFileName.toList =
      e.oldFileName.toList.take i ++ rep.toList ++
        e.oldFileName.toList.drop (i + l) ∧
    ∀ u v : List Char, e.oldFileName.toList.drop (i + l) = u ++ v →
      e.newFileName.toList =
        (e.oldFileName.toList.take i ++ rep.toList ++ u) ++ v := by
  obtain ⟨f, _, hef⟩ := mem_previewRename he
  have h1 : e.newFileName = jsReplaceStr pat rep e.oldFileName := by
    subst hef; rfl
  constructor
  · rw [h1]
    exact jsReplaceStr_of_firstMatch pat rep _ i l hm
  · intro u v huv
    rw [h1, jsReplaceStr_of_firstMatch pat rep _ i l hm, huv]
    simp [List.append_assoc]

/-- Witness for C10: replacing the first `a` of `aa.txt` with `X` yields
`Xa.txt`; the second `a` is untouched. -/
theorem claim10_witness :
    mkPreview (Reg.chr 'a') "X" "/w/aa.txt" ∈
        previewRename (Reg.chr 'a') "X" ["/w/aa.txt"] ∧
    firstMatch (Reg.chr 'a')
        (mkPreview (Reg.chr 'a') "X" "/w/aa.txt").oldFileName.toList =
      some (0, 1) ∧
    ((mkPreview (Reg.chr 'a') "X" "/w/aa.txt").newFileName.toList =
        (mkPreview (Reg.chr 'a') "X" "/w/aa.txt").oldFileName.toList.take 0 ++
          "X".toList ++
          (mkPreview (Reg.chr 'a') "X" "/w/aa.txt").oldFileName.toList.drop
            (0 + 1) ∧
     ∀ u v : List Char,
       (mkPreview (Reg.chr 'a') "X" "/w/aa.txt").oldFileName.toList.drop
           (0 + 1) = u ++ v →
       (mkPreview (Reg.chr 'a') "X" "/w/aa.txt").newFileName.toList =
         ((mkPreview (Reg.chr 'a') "X" "/w/aa.txt").oldFileName.toList.take 0 ++
           "X".toList ++ u) ++ v) :=
  ⟨by decide, by decide,
   claim10_leftmost_only (Reg.chr 'a') "X" ["/w/aa.txt"] _ 0 1
     (by decide) (by decide)⟩

theorem stripLead_append : ∀ b rest : List Char, stripLead b (b ++ rest) = some rest
  | [], _ => rfl
  | c :: bs, rest => by simp [stripLead, stripLead_append bs rest]

theorem specInvalidName_isValidFileName {name : String}
    (h : specInvalidName name) : isValidFileName name = false := by
  unfold isValidFileName
  split
  · rfl
  split
  · rfl
  split
  · rfl
  split
  · rfl
  · rename_i h1 h2 h3 h4
    exfalso
    rcases h with he | ⟨c, hcm, hcc⟩ | ⟨b, hbm, hbe⟩ | hd
    · subst he
      exact h1 rfl
    · apply h2
      refine List.any_eq_true.mpr ⟨c, hcm, ?_⟩
      rcases hcc with hin | hle
      · fin_cases hin <;> decide
      · simp [isInvalidFileChar]
        omega
    · apply h3
      unfold isReservedName
      refine List.any_eq_true.mpr ⟨b, hbm, ?_⟩
      rcases hbe with h5 | ⟨r, h5⟩
      · have hs : stripLead b.toList (name.toList.map Char.toUpper) = some [] := by
          rw [h5]
          calc stripLead b.toList b.toList
              = stripLead b.toList (b.toList ++ []) := by simp
            _ = some [] := stripLead_append _ _
        rw [hs]
        rfl
      · have hs : stripLead b.toList (name.toList.map Char.toUpper) =
            some ('.' :: r) := by
          rw [h5]
          exact stripLead_append _ _
        rw [hs]
        rfl
    · apply h4
      rcases hd with hd | hd <;> simp [hd]

/-- C5: validation fails (`isValid = false`) whenever some entry's new file
name violates one of the listed conditions (empty, a forbidden or control
character, a reserved device name, or a trailing dot or space); when every
new name passes `isValidFileName`, validation succeeds regardless of
duplicate targets; and on the duplicate-collapse scenario (`a.ts`, `b.ts`
both mapped to `same.ts` by pattern `.*`) the result is `isValid = true`
with the second entry reported in `duplicateFiles`. -/
theorem claim5_validateRename :
    (∀ (fsE fsD : String → Bool) (previews : List RenamePreview)
        (p : RenamePreview), p ∈ previews → specInvalidName p.newFileName →
        (validateRename fsE fsD previews).isValid = false) ∧
    (∀ (fsE fsD : String → Bool) (previews : List RenamePreview),
        (∀ p ∈ previews, isValidFileName p.newFileName = true) →
        (validateRename fsE fsD previews).isValid = true) ∧
    ((validateRename (fun _ => false) (fun _ => false)
        (previewRename (Reg.star Reg.anyc) "same.ts"
          ["/w/a.ts", "/w/b.ts"])).isValid = true ∧
      (validateRename (fun _ => false) (fun _ => false)
        (previewRename (Reg.star Reg.anyc) "same.ts"
          ["/w/a.ts", "/w/b.ts"])).duplicateFiles =
        [{ oldPath := "/w/b.ts", newPath := "/w/same.ts",
           oldFileName := "b.ts", newFileName := "same.ts",
           needsDirectoryMove := true }]) := by
  refine ⟨?_, ?_, ?_⟩
  · intro fsE fsD previews p hp hbad
    have hfalse : isValidFileName p.newFileName = false :=
      specInvalidName_isValidFileName hbad
    simp only [validateRename]
    split
    · rfl
    · rename_i hne
      exfalso
      have h0 := not_ne_iff.mp hne
      have := List.filter_eq_nil_iff.mp h0 p hp
      simp [hfalse] at this
  · intro fsE fsD previews hall
    simp only [validateRename]
    split
    · rename_i hne
      exact absurd (List.filter_eq_nil_iff.mpr fun p hp => by simp [hall p hp]) hne
    · rfl
  · constructor
    · decide
    · decide

/-- Witness for C5 at concrete inputs: the reserved name `CON` forces
`isValid = false`, and an all-valid entry list validates. -/
theorem claim5_witness :
    specInvalidName "CON" ∧
    (validateRename (fun _ => false) (fun _ => false)
      [conPreview]).isValid = false ∧
    (validateRename (fun _ => false) (fun _ => false)
      ([] : List RenamePreview)).isValid = true := by
  have hspec : specInvalidName "CON" :=
    Or.inr (Or.inr (Or.inl ⟨"CON", by decide, Or.inl (by decide)⟩))
  refine ⟨hspec, ?_, ?_⟩
  · exact claim5_validateRename.1 (fun _ => false) (fun _ => false)
      [conPreview] conPreview (by decide) hspec
  · exact claim5_validateRename.2.1 (fun _ => false) (fun _ => false) []
      (fun p hp => absurd hp (List.not_mem_nil p))

/-- C6: when preparing directories fails for some required directory, the
whole batch aborts: `successCount = 0`, `failureCount = entries.length`,
and the filesystem `rename` primitive is never invoked (the attempted-call
list is empty and the filesystem and history are untouched). -/
theorem claim6_dirFailure_aborts (dirEx createFails : String → Bool)
    (now : Nat) (fs : FS) (st : RenameState)
    (previews : List RenamePreview) (hne : previews ≠ [])
    (hfail : (dirsToCreate previews).any
      (dirPrepFails dirEx createFails) = true) :
    executeRename dirEx createFails now fs st previews =
      (⟨0, previews.length, [(previews.headD default).oldPath]⟩,
        [], fs, st) := by
  unfold executeRename
  rw [if_neg hne, if_pos hfail]

/-- Witness for C6 at a concrete input: one entry needing `/s`, whose
creation fails. -/
theorem claim6_witness :
    ([dirFailPreview] : List RenamePreview) ≠ [] ∧
    (dirsToCreate [dirFailPreview]).any
      (dirPrepFails (fun _ => false) (fun _ => true)) = true ∧
    executeRename (fun _ => false) (fun _ => true) 0 [] ⟨[], []⟩
        [dirFailPreview] =
      (⟨0, 1, ["/w/a"]⟩, [], [], ⟨[], []⟩) :=
  ⟨by decide, by decide,
   claim6_dirFailure_aborts (fun _ => false) (fun _ => true) 0 [] ⟨[], []⟩
     [dirFailPreview] (by decide) (by decide)⟩

theorem addToHistory_undo_le (h : RenameHistory) (st : RenameState)
    (hst : st.undoH.length ≤ maxHistorySize) :
    (addToHistory h st).undoH.length ≤ maxHistorySize ∧
    (addToHistory h st).redoH = [] := by
  refine ⟨?_, rfl⟩
  simp only [addToHistory]
  split
  · rename_i hlen
    simp only [List.length_dropLast, List.length_cons]
    omega
  · rename_i hlen
    simp only [List.length_cons] at hlen ⊢
    omega

theorem executeRename_state (dirEx createFails : String → Bool) (now : Nat)
    (fs : FS) (st : RenameState) (previews : List RenamePreview) :
    (executeRename dirEx createFails now fs st previews).2.2.2 = st ∨
    ∃ h, (executeRename dirEx createFails now fs st previews).2.2.2 =
      addToHistory h st := by
  simp only [executeRename]
  split
  · exact Or.inl rfl
  split
  · exact Or.inl rfl
  · dsimp only
    split
    · exact Or.inr ⟨_, rfl⟩
    · exact Or.inl rfl

theorem serviceStep_sum {s s' : RenameState} (hs : ServiceStep s s')
    (hsum : s.undoH.length + s.redoH.length ≤ maxHistorySize) :
    s'.undoH.length + s'.redoH.length ≤ maxHistorySize := by
  cases hs with
  | exec dirEx createFails now fs previews =>
    rcases executeRename_state dirEx createFails now fs s previews with
      h | ⟨hh, h⟩
    · rw [h]; exact hsum
    · rw [h]
      obtain ⟨h1, h2⟩ := addToHistory_undo_le hh s (by omega)
      rw [h2]
      simpa using h1
  | undoStep fs st out h =>
    cases hu : s.undoH with
    | nil =>
      simp only [undoService, hu] at h
      exact absurd h (by simp)
    | cons e rest =>
      simp only [undoService, hu] at h
      have ho := Option.some.inj h
      rw [← ho]
      simp only [List.length_cons]
      rw [hu] at hsum
      simp only [List.length_cons] at hsum
      omega
  | redoStep fs st out h =>
    cases hr : s.redoH with
    | nil =>
      simp only [redoService, hr] at h
      exact absurd h (by simp)
    | cons e rest =>
      simp only [redoService, hr] at h
      have ho := Option.some.inj h
      rw [← ho]
      simp only [List.length_cons]
      rw [hr] at hsum
      simp only [List.length_cons] at hsum
      omega

/-- C7: in every state reachable from a fresh service by any interleaving
of `executeRename`, `undo` and `redo` (against arbitrary filesystems), each
history stack holds at most 10 entries; and a push onto a full undo stack
evicts the oldest entry, keeping the stack at exactly 10. -/
theorem claim7_history_bounded :
    (∀ st : RenameState, ReachableState st →
      st.undoH.length ≤ maxHistorySize ∧
      st.redoH.length ≤ maxHistorySize) ∧
    (∀ (h : RenameHistory) (st : RenameState),
      st.undoH.length = maxHistorySize →
      (addToHistory h st).undoH = h :: st.undoH.dropLast ∧
      (addToHistory h st).undoH.length = maxHistorySize) := by
  constructor
  · intro st hreach
    have hsum : st.undoH.length + st.redoH.length ≤ maxHistorySize := by
      induction hreach with
      | refl => simp [maxHistorySize]
      | tail _ hstep ih => exact serviceStep_sum hstep ih
    exact ⟨by omega, by omega⟩
  · intro h st hlen
    have hcond : maxHistorySize < st.undoH.length + 1 := by omega
    constructor
    · simp only [addToHistory, List.length_cons]
      rw [if_pos hcond]
      cases hcase : st.undoH with
      | nil =>
        rw [hcase] at hlen
        simp [maxHistorySize] at hlen
      | cons x xs => rfl
    · simp only [addToHistory, List.length_cons]
      rw [if_pos hcond]
      simp only [List.length_dropLast, List.length_cons]
      omega

/-- Witness for C7: the fresh state is reachable and within bounds, and a
push onto a concrete full stack evicts the oldest entry. -/
theorem claim7_witness :
    ((⟨[], []⟩ : RenameState).undoH.length ≤ maxHistorySize ∧
     (⟨[], []⟩ : RenameState).redoH.length ≤ maxHistorySize) ∧
    ((addToHistory ⟨[], 1⟩ tenState).undoH =
        ⟨[], 1⟩ :: tenState.undoH.dropLast ∧
     (addToHistory ⟨[], 1⟩ tenState).undoH.length = maxHistorySize) :=
  ⟨claim7_history_bounded.1 ⟨[], []⟩ Relation.ReflTransGen.refl,
   claim7_history_bounded.2 ⟨[], 1⟩ tenState (by decide)⟩

/-- C1: the round-trip claim fails on the chained batch
`[/w/b→/w/c, /w/a→/w/b]`.  The execute succeeds completely (2 successes, 0
failures) and the immediate `undo()` does restore both files with
`failureCount = 0`; but the subsequent `redo()` — replaying the mapping
that undo's in-place `Array.reverse()` left reversed — fails on one file
(`failureCount = 1`) and does not restore the post-rename state (nothing
ends up at `/w/b`, where the post-rename state had file 0). -/
theorem claim1_chain_roundTrip_fails :
    chainExec.1 = ⟨2, 0, []⟩ ∧
    chainUndo.1 = ⟨2, 0, []⟩ ∧
    fsLookup chainUndo.2.2.1 "/w/a" = some 0 ∧
    fsLookup chainUndo.2.2.1 "/w/b" = some 1 ∧
    fsLookup chainUndo.2.2.1 "/w/c" = none ∧
    fsLookup chainExec.2.2.1 "/w/b" = some 0 ∧
    fsLookup chainExec.2.2.1 "/w/c" = some 1 ∧
    chainRedo.1.failureCount = 1 ∧
    fsLookup chainRedo.2.2.1 "/w/b" = none := by
  decide

/-- C4: `redo()` does not replay the moves in the order recorded at
execute time.  The execute records the mapping `[(b,c), (a,b)]`; the undo's
`fileMapping.reverse()` mutates that stored array in place before pushing
it onto the redo stack, so redo replays `[(a,b), (b,c)]` — the reverse of
the recorded order. -/
theorem claim4_redo_replays_reversed :
    chainExec.2.2.2.undoH =
      [⟨[("/w/b", "/w/c"), ("/w/a", "/w/b")], 0⟩] ∧
    chainUndo.2.2.2.redoH =
      [⟨[("/w/a", "/w/b"), ("/w/b", "/w/c")], 0⟩] ∧
    chainRedo.2.1 = [("/w/a", "/w/b"), ("/w/b", "/w/c")] ∧
    chainRedo.2.1 ≠ [("/w/b", "/w/c"), ("/w/a", "/w/b")] := by
  decide

end RFF
